import Mathlib

/-!
Verification of the "virtual live channel" core of the video-player module:
the channel position resolver (`channel_live.py`, `VideoPlayer.load_channel`)
and the duration index (`DBHandler.py`).

Seconds are modelled as rationals (`ℚ`).  Python's float modulo `a % b` is
`a - b * ⌊a / b⌋` for `b ≠ 0` and raises `ZeroDivisionError` for `b = 0`;
fallible computations return `Except PyErr`.
-/

/-- Errors the embedded Python code can raise. -/
inductive PyErr where
  | zeroDivision
deriving DecidableEq

/-- Python's modulo `a % b` for `b ≠ 0`: the result has the sign of the
divisor, `a % b = a - b * floor (a / b)`. -/
def pymod (a b : ℚ) : ℚ := a - b * (⌊a / b⌋ : ℤ)

/-- `channel_live.time_since_golive`: seconds between `now` and the go-live
constant.  The wall clock and the constant are passed explicitly. -/
def time_since_golive (goLive now : ℚ) : ℚ := now - goLive

/-- `channel_live.time_to_seek_in_channel`: `elapsed % channel_duration_seconds`.
Python raises `ZeroDivisionError` when the duration is zero. -/
def time_to_seek_in_channel (goLive now : ℚ) (channel_duration_seconds : ℚ) :
    Except PyErr ℚ :=
  let elapsed_seconds := time_since_golive goLive now
  if channel_duration_seconds = 0 then Except.error PyErr.zeroDivision
  else Except.ok (pymod elapsed_seconds channel_duration_seconds)

/-- The file-selection loop of `VideoPlayer.load_channel` (lines 123-131):
`timeIndex` accumulates the running prefix sum, `time_to_play_in_video`
starts at the channel position and has each skipped duration subtracted,
`idx` counts the skipped videos.  Returns
`(current_video_index, time_to_play_in_video)`. -/
def select_video_aux (time_to_play_in_channel : ℚ) :
    List ℚ → ℚ → ℚ → Nat → Nat × ℚ
  | [], _, time_to_play_in_video, idx => (idx, time_to_play_in_video)
  | video_duration :: rest, timeIndex, time_to_play_in_video, idx =>
    let timeIndex' := timeIndex + video_duration
    if time_to_play_in_channel < timeIndex' then (idx, time_to_play_in_video)
    else
      select_video_aux time_to_play_in_channel rest timeIndex'
        (time_to_play_in_video - video_duration) (idx + 1)

/-- The selection loop started as in the source: `current_video_index = 0`,
`timeIndex = 0`, `time_to_play_in_video = time_to_play_in_channel`. -/
def select_video (video_durations : List ℚ) (time_to_play_in_channel : ℚ) :
    Nat × ℚ :=
  select_video_aux time_to_play_in_channel video_durations 0
    time_to_play_in_channel 0

/-- Observable outcome of `VideoPlayer.load_channel`. -/
inductive LoadResult where
  | played (video_index : Nat) (start_time : ℚ)
  | noVideoMessage
deriving DecidableEq

/-- `VideoPlayer.load_channel` (lines 111-137): compute the channel seek time
(raising `ZeroDivisionError` when the channel duration is 0), run the
selection loop over the channel's duration list, then either play the
selected video or show the "No videos found" message when the video list is
empty. -/
def load_channel (videos_in_channel : List String) (video_durations : List ℚ)
    (channel_duration goLive now : ℚ) : Except PyErr LoadResult :=
  match time_to_seek_in_channel goLive now channel_duration with
  | Except.error e => Except.error e
  | Except.ok time_to_play_in_channel =>
    let r := select_video video_durations time_to_play_in_channel
    if videos_in_channel.isEmpty then Except.ok LoadResult.noVideoMessage
    else Except.ok (LoadResult.played r.1 r.2)

/-- `VideoPlayer.play_video` fetches `self.videos_in_channel[video_index]`;
an out-of-range index raises `IndexError`, modelled by `none`. -/
def play_video_path (videos_in_channel : List String) (video_index : Nat) :
    Option String :=
  videos_in_channel.get? video_index

/-- Prefix sums of the duration list: `prefixSum ds i = Σ_{k < i} ds[k]`. -/
def prefixSum (ds : List ℚ) (i : Nat) : ℚ := (ds.take i).sum

/-- Structural recursion equivalent of the selection loop, used to reason
about `select_video` by induction. -/
def selectSpec : List ℚ → ℚ → Nat × ℚ
  | [], pos => (0, pos)
  | d :: rest, pos =>
    if pos < d then (0, pos)
    else
      let r := selectSpec rest (pos - d)
      (r.1 + 1, r.2)

/-- Video file extensions accepted by `VideoPlayer` (`self.video_extensions`). -/
def video_extensions : List String := [".mkv", ".avi", ".mp4"]

/-- The extension produced by `os.path.splitext` on a bare filename: the text
from the last dot, except that leading dots never start an extension
(`".bashrc"` has no extension). -/
def splitext_ext (name : String) : String :=
  let rest := name.toList.dropWhile (fun c => c == '.')
  if rest.contains '.' then
    String.mk ('.' :: (rest.reverse.takeWhile (fun c => c != '.')).reverse)
  else ""

/-- The filter of `get_videos_from_channel`: keep files whose lower-cased
name has an accepted video extension. -/
def is_video_file (file : String) : Bool :=
  video_extensions.contains (splitext_ext file.toLower)

/-- `VideoPlayer.get_videos_from_channel` (lines 83-109): walk the channel
directory listing (the regular files, in whatever order the OS returns
them), keep the video files, join each name onto the channel path, and sort
the joined paths (`videos.sort()`, Python's stable lexicographic sort,
modelled by `insertionSort`). -/
def get_videos_from_channel (channel_path : String)
    (dir_listing : List String) : List String :=
  ((dir_listing.filter is_video_file).map
    (fun file => channel_path ++ "/" ++ file)).insertionSort (· ≤ ·)

/-- A row of the `videos` table (`DBHandler.init_db`): `Path` is the unique
identifier, `ScannedAt` is the scan timestamp written by `upsert_video`. -/
structure VideoRow where
  id : Nat
  channelId : Nat
  path : String
  fileName : String
  durationSeconds : ℚ
  sizeBytes : Option Nat
  modifiedAt : Option String
  scannedAt : Nat
deriving DecidableEq

/-- A row of the `channels` table. -/
structure ChannelRow where
  id : Nat
  name : String
deriving DecidableEq

/-- `Path(path).name`: the final component of a slash-separated path. -/
def pathName (p : String) : String :=
  String.mk ((p.toList.reverse.takeWhile (fun c => c != '/')).reverse)

/-- A fresh `INTEGER PRIMARY KEY` for an insert. -/
def freshId (db : List VideoRow) : Nat :=
  (db.map (fun r => r.id)).foldr max 0 + 1

/-- The `ON CONFLICT(Path) DO UPDATE SET ...` assignment of
`DbHandler.upsert_video`: rewrite every field except `Id` and `Path`,
stamping `ScannedAt` with the current time. -/
def updateRow (nowTs channel_id : Nat) (path : String) (duration_seconds : ℚ)
    (size_bytes : Option Nat) (modified_at_iso : Option String)
    (r : VideoRow) : VideoRow :=
  if r.path = path then
    { r with channelId := channel_id, fileName := pathName path,
             durationSeconds := duration_seconds, sizeBytes := size_bytes,
             modifiedAt := modified_at_iso, scannedAt := nowTs }
  else r

/-- `DbHandler.upsert_video` (lines 102-132): insert a new row for an unseen
`Path`, otherwise update the conflicting row in place (the table's UNIQUE
index on `Path` means at most one row can match).  Returns the updated table
and the row id selected back by `SELECT Id FROM videos WHERE Path = ?`
(`-1` when absent).  The wall-clock `CURRENT_TIMESTAMP` is passed as
`nowTs`. -/
def upsert_video (db : List VideoRow) (nowTs : Nat) (channel_id : Nat)
    (path : String) (duration_seconds : ℚ) (size_bytes : Option Nat)
    (modified_at_iso : Option String) : List VideoRow × Int :=
  let updated :=
    if db.any (fun r => r.path == path) then
      db.map (updateRow nowTs channel_id path duration_seconds size_bytes
        modified_at_iso)
    else
      db ++ [{ id := freshId db, channelId := channel_id, path := path,
               fileName := pathName path, durationSeconds := duration_seconds,
               sizeBytes := size_bytes, modifiedAt := modified_at_iso,
               scannedAt := nowTs }]
  (updated,
    match updated.find? (fun r => r.path == path) with
    | some r => (r.id : Int)
    | none => -1)

/-- The `JOIN channels c ON c.Id = v.ChannelId` of `DbHandler.list_videos`:
pair each video row with its channel's name; rows without a matching
channel row are dropped (inner join). -/
def joinChannel (channels : List ChannelRow) (r : VideoRow) :
    Option (String × VideoRow) :=
  (channels.find? (fun c => c.id == r.channelId)).map (fun c => (c.name, r))

/-- The `ORDER BY c.Name, v.FileName` key of `DbHandler.list_videos`:
ascending channel name, then ascending file name. -/
def listKeyLe (a b : String × VideoRow) : Prop :=
  a.1 < b.1 ∨ (a.1 = b.1 ∧ a.2.fileName ≤ b.2.fileName)

instance : DecidableRel listKeyLe := fun a b => by
  unfold listKeyLe
  infer_instance

instance : IsTotal (String × VideoRow) listKeyLe :=
  ⟨fun a b => by
    unfold listKeyLe
    rcases lt_trichotomy a.1 b.1 with h | h | h
    · exact Or.inl (Or.inl h)
    · rcases le_total a.2.fileName b.2.fileName with h2 | h2
      · exact Or.inl (Or.inr ⟨h, h2⟩)
      · exact Or.inr (Or.inr ⟨h.symm, h2⟩)
    · exact Or.inr (Or.inl h)⟩

instance : IsTrans (String × VideoRow) listKeyLe :=
  ⟨fun a b c hab hbc => by
    unfold listKeyLe at *
    rcases hab with h1 | ⟨h1, h1'⟩
    · rcases hbc with h2 | ⟨h2, h2'⟩
      · exact Or.inl (lt_trans h1 h2)
      · exact Or.inl (h2 ▸ h1)
    · rcases hbc with h2 | ⟨h2, h2'⟩
      · exact Or.inl (h1 ▸ h2)
      · exact Or.inr ⟨h1.trans h2, le_trans h1' h2'⟩⟩

/-- `DbHandler.list_videos` (lines 217-226): join videos with channels and
sort by channel name then file name (SQL ORDER BY, modelled by a stable
sort on the join output). -/
def list_videos (channels : List ChannelRow) (db : List VideoRow) :
    List (String × VideoRow) :=
  (db.filterMap (joinChannel channels)).insertionSort listKeyLe

/-- The Video Entry view of a row: forget the `ScannedAt` scan timestamp
(scan metadata, not one of the Video Entry fields of the data model). -/
def stripRow (r : VideoRow) : VideoRow := { r with scannedAt := 0 }

/-- The Video Entry view of the whole table. -/
def stripScan (db : List VideoRow) : List VideoRow := db.map stripRow

/-- The Video Entry view of a `list_videos` result. -/
def stripListed (l : List (String × VideoRow)) : List (String × VideoRow) :=
  l.map (fun a => (a.1, stripRow a.2))

/-- A file discovered by `scan_and_store_durations`, with the result of its
ffprobe duration probe (`none`: the probe failed and the file is skipped). -/
structure ScanFile where
  path : String
  probedDuration : Option ℚ
  sizeBytes : Option Nat
  modifiedAt : Option String
deriving DecidableEq

/-- The per-channel file loop of `DbHandler.scan_and_store_durations`
(lines 161-193): for each discovered file, skip it when the probe failed,
otherwise upsert its row and add the duration to the channel total.  The
table state and the running channel total are threaded through. -/
def scan_channel_files (nowTs : Nat) (ch_id : Nat) :
    List ScanFile → List VideoRow → ℚ → List VideoRow × ℚ
  | [], db, channel_total => (db, channel_total)
  | f :: fs, db, channel_total =>
    match f.probedDuration with
    | none => scan_channel_files nowTs ch_id fs db channel_total
    | some dur =>
      scan_channel_files nowTs ch_id fs
        (upsert_video db nowTs ch_id f.path dur f.sizeBytes f.modifiedAt).1
        (channel_total + dur)

/-- Prior index state for the C8 scenario: channel 1 already holds an entry
for `old.mp4`. -/
def c8_oldRow : VideoRow :=
  { id := 1, channelId := 1, path := "freevideos/channel1/old.mp4",
    fileName := "old.mp4", durationSeconds := 7, sizeBytes := none,
    modifiedAt := none, scannedAt := 0 }

/-- Prior table for the C8 scenario. -/
def c8_prior_db : List VideoRow := [c8_oldRow]

/-- Scan result for the C8 scenario: the directory now contains only
`new.mp4`. -/
def c8_scan_files : List ScanFile :=
  [{ path := "freevideos/channel1/new.mp4", probedDuration := some 5,
     sizeBytes := none, modifiedAt := none }]

theorem select_video_aux_eq (pos : ℚ) :
    ∀ (ds : List ℚ) (t : ℚ) (idx : Nat),
      select_video_aux pos ds t (pos - t) idx =
        ((selectSpec ds (pos - t)).1 + idx, (selectSpec ds (pos - t)).2)
  | [], t, idx => by simp [select_video_aux, selectSpec]
  | d :: rest, t, idx => by
    simp only [select_video_aux, selectSpec]
    have hiff : pos < t + d ↔ pos - t < d := by constructor <;> intro h <;> linarith
    by_cases h : pos - t < d
    · rw [if_pos (hiff.mpr h), if_pos h]
      simp
    · rw [if_neg (fun hc => h (hiff.mp hc)), if_neg h]
      have harg : pos - t - d = pos - (t + d) := by ring
      rw [harg, select_video_aux_eq pos rest (t + d) (idx + 1)]
      simp only [Prod.mk.injEq]
      exact ⟨by omega, trivial⟩

theorem select_video_eq_selectSpec (ds : List ℚ) (pos : ℚ) :
    select_video ds pos = selectSpec ds pos := by
  have h := select_video_aux_eq pos ds 0 0
  simpa [select_video, sub_zero] using h

theorem prefixSum_zero (ds : List ℚ) : prefixSum ds 0 = 0 := rfl

theorem prefixSum_cons_succ (d : ℚ) (rest : List ℚ) (n : Nat) :
    prefixSum (d :: rest) (n + 1) = d + prefixSum rest n := by
  simp [prefixSum, List.take_succ_cons]

theorem prefixSum_succ_getD (ds : List ℚ) (i : Nat) (h : i < ds.length) :
    prefixSum ds (i + 1) = prefixSum ds i + ds.getD i 0 := by
  induction ds generalizing i with
  | nil => simp at h
  | cons d rest ih =>
    cases i with
    | zero => simp [prefixSum_cons_succ, prefixSum, List.getD]
    | succ n =>
      have hn : n < rest.length := by simpa using h
      rw [prefixSum_cons_succ, prefixSum_cons_succ, ih n hn]
      simp [List.getD_cons_succ]
      ring

theorem selectSpec_snd (ds : List ℚ) (pos : ℚ) :
    (selectSpec ds pos).2 = pos - prefixSum ds (selectSpec ds pos).1 := by
  induction ds generalizing pos with
  | nil => simp [selectSpec, prefixSum]
  | cons d rest ih =>
    by_cases h : pos < d
    · simp [selectSpec, h, prefixSum]
    · simp only [selectSpec, if_neg h]
      rw [ih (pos - d), prefixSum_cons_succ]
      ring

theorem selectSpec_snd_nonneg (ds : List ℚ) (pos : ℚ) (h0 : 0 ≤ pos) :
    0 ≤ (selectSpec ds pos).2 := by
  induction ds generalizing pos with
  | nil => simpa [selectSpec] using h0
  | cons d rest ih =>
    by_cases h : pos < d
    · simpa [selectSpec, h] using h0
    · simp only [selectSpec, if_neg h]
      exact ih (pos - d) (by linarith [not_lt.mp h])

theorem selectSpec_fst_lt_length (ds : List ℚ) (pos : ℚ) (h0 : 0 ≤ pos)
    (hlt : pos < ds.sum) : (selectSpec ds pos).1 < ds.length := by
  induction ds generalizing pos with
  | nil =>
    exfalso
    simp only [List.sum_nil] at hlt
    linarith
  | cons d rest ih =>
    by_cases h : pos < d
    · simp [selectSpec, h]
    · simp only [selectSpec, if_neg h, List.length_cons]
      have h1 : 0 ≤ pos - d := by linarith [not_lt.mp h]
      have h2 : pos - d < rest.sum := by
        simp only [List.sum_cons] at hlt
        linarith
      exact Nat.succ_lt_succ (ih (pos - d) h1 h2)

theorem selectSpec_snd_lt_getD (ds : List ℚ) (pos : ℚ) (h0 : 0 ≤ pos)
    (hlt : pos < ds.sum) :
    (selectSpec ds pos).2 < ds.getD (selectSpec ds pos).1 0 := by
  induction ds generalizing pos with
  | nil =>
    exfalso
    simp only [List.sum_nil] at hlt
    linarith
  | cons d rest ih =>
    by_cases h : pos < d
    · simp [selectSpec, h]
    · simp only [selectSpec, if_neg h]
      have h1 : 0 ≤ pos - d := by linarith [not_lt.mp h]
      have h2 : pos - d < rest.sum := by
        simp only [List.sum_cons] at hlt
        linarith
      simpa [List.getD_cons_succ] using ih (pos - d) h1 h2

theorem selectSpec_fst_min (ds : List ℚ) (pos : ℚ) (j : Nat)
    (hj : pos < prefixSum ds (j + 1)) : (selectSpec ds pos).1 ≤ j := by
  induction ds generalizing pos j with
  | nil => simp [selectSpec]
  | cons d rest ih =>
    by_cases h : pos < d
    · simp [selectSpec, h]
    · simp only [selectSpec, if_neg h]
      cases j with
      | zero =>
        exfalso
        rw [prefixSum_cons_succ, prefixSum_zero] at hj
        exact h (by linarith)
      | succ n =>
        rw [prefixSum_cons_succ] at hj
        have := ih (pos - d) n (by linarith)
        omega

theorem selectSpec_overrun (ds : List ℚ) (pos : ℚ) (hnn : ∀ d ∈ ds, 0 ≤ d)
    (hge : ds.sum ≤ pos) : selectSpec ds pos = (ds.length, pos - ds.sum) := by
  induction ds generalizing pos with
  | nil => simp [selectSpec]
  | cons d rest ih =>
    have hd : 0 ≤ d := hnn d (List.mem_cons_self d rest)
    have hrest : 0 ≤ rest.sum :=
      List.sum_nonneg fun x hx => hnn x (List.mem_cons_of_mem d hx)
    have hsum : d + rest.sum ≤ pos := by simpa [List.sum_cons] using hge
    have h : ¬pos < d := by push_neg; linarith
    simp only [selectSpec, if_neg h]
    rw [ih (pos - d) (fun x hx => hnn x (List.mem_cons_of_mem d hx)) (by linarith)]
    simp only [List.length_cons, List.sum_cons, Prod.mk.injEq]
    exact ⟨trivial, by ring⟩

theorem pymod_nonneg (a d : ℚ) (hd : 0 < d) : 0 ≤ pymod a d := by
  have h := Int.floor_le (a / d)
  have h2 : d * (⌊a / d⌋ : ℚ) ≤ a := by
    have := mul_le_mul_of_nonneg_left h (le_of_lt hd)
    rwa [mul_div_cancel₀ a (ne_of_gt hd)] at this
  simp only [pymod]
  linarith

theorem pymod_lt (a d : ℚ) (hd : 0 < d) : pymod a d < d := by
  have h := Int.lt_floor_add_one (a / d)
  have h2 : a < d * ((⌊a / d⌋ : ℚ) + 1) := by
    have := mul_lt_mul_of_pos_left h hd
    rwa [mul_div_cancel₀ a (ne_of_gt hd)] at this
  simp only [pymod]
  nlinarith

theorem pymod_add_int_mul (a d : ℚ) (hd : d ≠ 0) (k : ℤ) :
    pymod (a + k * d) d = pymod a d := by
  have hdiv : (a + k * d) / d = a / d + k := by
    field_simp
  simp only [pymod, hdiv, Int.floor_add_int]
  push_cast
  ring

theorem pymod_eq_self (a d : ℚ) (h0 : 0 ≤ a) (hlt : a < d) : pymod a d = a := by
  have hd : 0 < d := lt_of_le_of_lt h0 hlt
  have hfloor : ⌊a / d⌋ = 0 := by
    rw [Int.floor_eq_zero_iff]
    constructor
    · exact div_nonneg h0 (le_of_lt hd)
    · rw [div_lt_one hd]
      exact hlt
  simp [pymod, hfloor]

/-- C1: for positive-duration channels and in-range positions, the selection
loop returns the smallest index `i` with `prefixSum i ≤ pos < prefixSum (i+1)`
and offset `pos - prefixSum i` with `0 ≤ offset < duration i`; concretely, for
entries `[10, 20, 5]` with epoch 0 the resolver gives `(0, 0)` at 0 s,
`(1, 5)` at 15 s and `(0, 2)` at 37 s. -/
theorem C1_prefix_search_correct (ds : List ℚ) (pos : ℚ)
    (hpos : ∀ d ∈ ds, 0 < d) (h0 : 0 ≤ pos) (hlt : pos < ds.sum) :
    prefixSum ds (select_video ds pos).1 ≤ pos ∧
    pos < prefixSum ds ((select_video ds pos).1 + 1) ∧
    (∀ j, pos < prefixSum ds (j + 1) → (select_video ds pos).1 ≤ j) ∧
    (select_video ds pos).2 = pos - prefixSum ds (select_video ds pos).1 ∧
    0 ≤ (select_video ds pos).2 ∧
    (select_video ds pos).1 < ds.length ∧
    (select_video ds pos).2 < ds.getD (select_video ds pos).1 0 ∧
    load_channel ["A", "B", "C"] [10, 20, 5] 35 0 0 =
      Except.ok (LoadResult.played 0 0) ∧
    load_channel ["A", "B", "C"] [10, 20, 5] 35 0 15 =
      Except.ok (LoadResult.played 1 5) ∧
    load_channel ["A", "B", "C"] [10, 20, 5] 35 0 37 =
      Except.ok (LoadResult.played 0 2) := by
  simp only [select_video_eq_selectSpec]
  have hsnd := selectSpec_snd ds pos
  have hnn := selectSpec_snd_nonneg ds pos h0
  have hlen := selectSpec_fst_lt_length ds pos h0 hlt
  have hgetD := selectSpec_snd_lt_getD ds pos h0 hlt
  have hsucc := prefixSum_succ_getD ds (selectSpec ds pos).1 hlen
  have hf0 : ⌊(0:ℚ) / 35⌋ = 0 := by
    rw [Int.floor_eq_zero_iff]
    norm_num
  have hf15 : ⌊(15:ℚ) / 35⌋ = 0 := by
    rw [Int.floor_eq_zero_iff]
    norm_num
  have hf37 : ⌊(37:ℚ) / 35⌋ = 1 := by
    rw [Int.floor_eq_iff]
    norm_num
  refine ⟨by linarith, by linarith, selectSpec_fst_min ds pos, hsnd, hnn, hlen,
    hgetD, ?_, ?_, ?_⟩ <;>
    norm_num [load_channel, time_to_seek_in_channel, time_since_golive, pymod,
      hf0, hf15, hf37, select_video, select_video_aux]

theorem C1_prefix_search_correct_witness :
    ((∀ d ∈ ([10, 20, 5] : List ℚ), 0 < d) ∧ (0:ℚ) ≤ 15 ∧
      (15:ℚ) < ([10, 20, 5] : List ℚ).sum) ∧
    prefixSum [10, 20, 5] (select_video [10, 20, 5] 15).1 ≤ 15 :=
  ⟨⟨by norm_num, by norm_num, by norm_num⟩,
    (C1_prefix_search_correct [10, 20, 5] 15 (by norm_num) (by norm_num)
      (by norm_num)).1⟩

/-- C2: on a channel with zero total duration (no entries) the load crashes
with `ZeroDivisionError` in `time_to_seek_in_channel` (`elapsed % 0.0`); the
"No videos found" fallback branch of `load_channel` is never reached, so the
failure is an unhandled exception, not a recoverable no-content result. -/
theorem C2_empty_channel_crashes (goLive now : ℚ) :
    load_channel [] [] 0 goLive now = Except.error PyErr.zeroDivision ∧
    load_channel [] [] 0 goLive now ≠ Except.ok LoadResult.noVideoMessage := by
  constructor
  · rfl
  · intro h
    simp [load_channel, time_to_seek_in_channel, time_since_golive] at h

/-- C3: the resolver is invariant under adding any natural multiple of the
channel duration to `now` (the infinite-broadcast loop law). -/
theorem C3_loop_modulo_law (videos_in_channel : List String)
    (video_durations : List ℚ) (channel_duration goLive now : ℚ) (k : ℕ)
    (hd : 0 < channel_duration) :
    load_channel videos_in_channel video_durations channel_duration goLive
        (now + (k : ℚ) * channel_duration) =
      load_channel videos_in_channel video_durations channel_duration goLive
        now := by
  have hne : channel_duration ≠ 0 := ne_of_gt hd
  have harg : now + (k : ℚ) * channel_duration - goLive
      = (now - goLive) + ((k : ℤ) : ℚ) * channel_duration := by
    push_cast
    ring
  simp only [load_channel, time_to_seek_in_channel, time_since_golive,
    if_neg hne]
  rw [harg, pymod_add_int_mul _ _ hne (k : ℤ)]

theorem C3_loop_modulo_law_witness :
    (0:ℚ) < 35 ∧
    load_channel ["A"] [10] 35 0 (3 + ((2 : ℕ) : ℚ) * 35) =
      load_channel ["A"] [10] 35 0 3 :=
  ⟨by norm_num, C3_loop_modulo_law ["A"] [10] 35 0 3 2 (by norm_num)⟩

/-- C4 counterexample: at `now = -5 < 0 = goLive` with entries `[10, 20, 5]`,
the code does not clamp the elapsed time to 0: the Python modulo maps the
negative elapsed `-5` to position `30`, selecting the third entry with offset
0 rather than the first entry with offset 0 as the claim states. -/
theorem C4_no_clamp_counterexample :
    load_channel ["A", "B", "C"] [10, 20, 5] 35 0 (-5) =
      Except.ok (LoadResult.played 2 0) ∧
    Except.ok (LoadResult.played 2 0) ≠
      (Except.ok (LoadResult.played 0 0) : Except PyErr LoadResult) := by
  have hf : ⌊(-5:ℚ) / 35⌋ = -1 := by
    rw [Int.floor_eq_iff]
    norm_num
  constructor
  · norm_num [load_channel, time_to_seek_in_channel, time_since_golive, pymod,
      hf, select_video, select_video_aux]
  · simp

/-- C4 amended: when `now < epoch` the elapsed time is not clamped to 0;
the Python modulo maps the negative elapsed into `[0, total)` and the
resolver returns the entry at that wrapped position (not necessarily the
first entry). -/
theorem C4_amended_negative_elapsed_wraps (videos_in_channel : List String)
    (video_durations : List ℚ) (channel_duration goLive now : ℚ)
    (hnow : now < goLive) (hd : 0 < channel_duration)
    (hne : videos_in_channel ≠ []) :
    time_to_seek_in_channel goLive now channel_duration =
      Except.ok (pymod (now - goLive) channel_duration) ∧
    0 ≤ pymod (now - goLive) channel_duration ∧
    pymod (now - goLive) channel_duration < channel_duration ∧
    load_channel videos_in_channel video_durations channel_duration goLive
        now =
      Except.ok (LoadResult.played
        (select_video video_durations
          (pymod (now - goLive) channel_duration)).1
        (select_video video_durations
          (pymod (now - goLive) channel_duration)).2) := by
  have hne' : channel_duration ≠ 0 := ne_of_gt hd
  have hempty : videos_in_channel.isEmpty = false := by
    simpa [List.isEmpty_iff] using hne
  refine ⟨?_, pymod_nonneg _ _ hd, pymod_lt _ _ hd, ?_⟩
  · simp [time_to_seek_in_channel, time_since_golive, if_neg hne']
  · simp [load_channel, time_to_seek_in_channel, time_since_golive,
      if_neg hne', hempty]

theorem C4_amended_negative_elapsed_wraps_witness :
    ((-5:ℚ) < 0 ∧ (0:ℚ) < 35 ∧ (["A"] : List String) ≠ []) ∧
    0 ≤ pymod ((-5:ℚ) - 0) 35 :=
  ⟨⟨by norm_num, by norm_num, by simp⟩,
    (C4_amended_negative_elapsed_wraps ["A"] [10] 35 0 (-5) (by norm_num)
      (by norm_num) (by simp)).2.1⟩

/-- C5 counterexample: on a channel whose entries all have zero duration the
claim says the resolver returns index 0 with offset 0 as a defined degenerate
result; the code instead raises `ZeroDivisionError`, because the channel
total is 0. -/
theorem C5_all_zero_counterexample :
    load_channel ["A", "B"] [0, 0] (List.sum [0, 0]) 0 5 =
      Except.error PyErr.zeroDivision ∧
    load_channel ["A", "B"] [0, 0] (List.sum [0, 0]) 0 5 ≠
      Except.ok (LoadResult.played 0 0) := by
  have h : load_channel ["A", "B"] [0, 0] (List.sum [0, 0]) 0 5 =
      Except.error PyErr.zeroDivision := by
    norm_num [load_channel, time_to_seek_in_channel, time_since_golive]
  refine ⟨h, ?_⟩
  rw [h]
  simp

/-- C5 amended: for any in-range position the selection loop never lands on a
zero-duration entry (the selected entry's duration is strictly positive); but
when every entry has zero duration the channel total is 0 and resolution
fails with `ZeroDivisionError` instead of returning index 0 with offset 0. -/
theorem C5_amended_zero_duration_skip :
    (∀ (ds : List ℚ) (pos : ℚ), 0 ≤ pos → pos < ds.sum →
      0 < ds.getD (select_video ds pos).1 0) ∧
    (∀ (videos_in_channel : List String) (ds : List ℚ) (goLive now : ℚ),
      (∀ d ∈ ds, d = 0) →
      load_channel videos_in_channel ds ds.sum goLive now =
        Except.error PyErr.zeroDivision) := by
  constructor
  · intro ds pos h0 hlt
    rw [select_video_eq_selectSpec]
    have h1 := selectSpec_snd_nonneg ds pos h0
    have h2 := selectSpec_snd_lt_getD ds pos h0 hlt
    linarith
  · intro videos ds goLive now hz
    have hsum : ds.sum = 0 := List.sum_eq_zero hz
    simp [load_channel, time_to_seek_in_channel, time_since_golive, hsum]

theorem C5_amended_zero_duration_skip_witness :
    ((0:ℚ) ≤ 3 ∧ (3:ℚ) < ([0, 5] : List ℚ).sum ∧
      0 < ([0, 5] : List ℚ).getD (select_video [0, 5] 3).1 0) ∧
    ((∀ d ∈ ([0, 0] : List ℚ), d = 0) ∧
      load_channel ["A"] [0, 0] ([0, 0] : List ℚ).sum 0 5 =
        Except.error PyErr.zeroDivision) :=
  ⟨⟨by norm_num, by norm_num,
    C5_amended_zero_duration_skip.1 [0, 5] 3 (by norm_num) (by norm_num)⟩,
   ⟨by norm_num, C5_amended_zero_duration_skip.2 ["A"] [0, 0] 0 5
      (by norm_num)⟩⟩

/-- C9: the embedded resolution computation is a pure function of the video
list, the duration index, the channel duration, the epoch and the clock
reading: two invocations with equal inputs (two uncoordinated clients
resolving the same channel at the same instant against the same index
snapshot) return identical results. -/
theorem C9_resolve_deterministic (v₁ v₂ : List String) (ds₁ ds₂ : List ℚ)
    (cd₁ cd₂ g₁ g₂ n₁ n₂ : ℚ) (hv : v₁ = v₂) (hds : ds₁ = ds₂)
    (hcd : cd₁ = cd₂) (hg : g₁ = g₂) (hn : n₁ = n₂) :
    load_channel v₁ ds₁ cd₁ g₁ n₁ = load_channel v₂ ds₂ cd₂ g₂ n₂ := by
  subst hv hds hcd hg hn
  rfl

theorem C9_resolve_deterministic_witness :
    (["A"] : List String) = ["A"] ∧
    load_channel ["A"] [10] 10 0 3 = load_channel ["A"] [10] 10 0 3 :=
  ⟨rfl, C9_resolve_deterministic ["A"] ["A"] [10] [10] 10 10 0 0 3 3 rfl rfl
    rfl rfl rfl⟩

/-- C10: with nonnegative durations, the selection loop yields an in-range
index exactly when the position is below the sum of the listed durations;
for a position at or past that sum the loop runs off the end, selecting
index `length`, and the subsequent `play_video` lookup of
`videos_in_channel[index]` is out of range.  Such a position is reachable
whenever the channel total used for the modulo exceeds the list's sum. -/
theorem C10_out_of_range_on_total_mismatch (ds : List ℚ)
    (hnn : ∀ d ∈ ds, 0 ≤ d) :
    (∀ pos : ℚ, 0 ≤ pos → pos < ds.sum →
      (select_video ds pos).1 < ds.length) ∧
    (∀ pos : ℚ, ds.sum ≤ pos →
      select_video ds pos = (ds.length, pos - ds.sum)) ∧
    (∀ (videos_in_channel : List String) (pos : ℚ),
      videos_in_channel.length = ds.length → ds.sum ≤ pos →
      play_video_path videos_in_channel (select_video ds pos).1 = none) ∧
    (∀ (videos_in_channel : List String) (channel_duration : ℚ),
      ds.sum < channel_duration → videos_in_channel.length = ds.length →
      videos_in_channel ≠ [] →
      load_channel videos_in_channel ds channel_duration 0 ds.sum =
        Except.ok (LoadResult.played ds.length 0) ∧
      play_video_path videos_in_channel ds.length = none) := by
  have hsum : 0 ≤ ds.sum := List.sum_nonneg hnn
  have hover : ∀ pos : ℚ, ds.sum ≤ pos →
      select_video ds pos = (ds.length, pos - ds.sum) := by
    intro pos hge
    rw [select_video_eq_selectSpec]
    exact selectSpec_overrun ds pos hnn hge
  have hlookup : ∀ (videos : List String) (pos : ℚ),
      videos.length = ds.length → ds.sum ≤ pos →
      play_video_path videos (select_video ds pos).1 = none := by
    intro videos pos hlen hge
    rw [hover pos hge]
    simp [play_video_path, List.get?_eq_none, hlen]
  refine ⟨?_, hover, hlookup, ?_⟩
  · intro pos h0 hlt
    rw [select_video_eq_selectSpec]
    exact selectSpec_fst_lt_length ds pos h0 hlt
  · intro videos cd hcd hlen hne
    have hne' : cd ≠ 0 := by
      intro h
      rw [h] at hcd
      linarith
    have hempty : videos.isEmpty = false := by
      simpa [List.isEmpty_iff] using hne
    have hp : pymod (ds.sum - 0) cd = ds.sum := by
      rw [sub_zero]
      exact pymod_eq_self ds.sum cd hsum hcd
    constructor
    · simp only [load_channel, time_to_seek_in_channel, time_since_golive,
        if_neg hne', hp, hempty, Bool.false_eq_true, if_false]
      rw [hover ds.sum (le_refl _)]
      simp
    · simpa [play_video_path, List.get?_eq_none] using le_of_eq hlen

theorem C10_out_of_range_on_total_mismatch_witness :
    ((∀ d ∈ ([10] : List ℚ), 0 ≤ d) ∧ ([10] : List ℚ).sum < 35 ∧
      (["A"] : List String).length = ([10] : List ℚ).length ∧
      (["A"] : List String) ≠ []) ∧
    (load_channel ["A"] [10] 35 0 ([10] : List ℚ).sum =
      Except.ok (LoadResult.played ([10] : List ℚ).length 0) ∧
    play_video_path ["A"] ([10] : List ℚ).length = none) :=
  ⟨⟨by norm_num, by norm_num, by simp, by simp⟩,
    (C10_out_of_range_on_total_mismatch [10] (by norm_num)).2.2.2 ["A"] 35
      (by norm_num) (by simp) (by simp)⟩

theorem string_append_left_cancel (s a b : String) (h : s ++ a = s ++ b) :
    a = b := by
  have hd : s.data ++ a.data = s.data ++ b.data := by
    rw [← String.data_append, ← String.data_append, h]
  exact String.ext (List.append_cancel_left hd)

theorem joined_paths_sublist (channels : List ChannelRow)
    (db : List VideoRow) :
    ((db.filterMap (joinChannel channels)).map (fun a => a.2.path)).Sublist
      (db.map (fun r => r.path)) := by
  induction db with
  | nil => simp
  | cons r rest ih =>
    cases h : joinChannel channels r with
    | none =>
      simp only [List.filterMap_cons, h, List.map_cons]
      exact ih.cons _
    | some a =>
      have ha : a.2 = r := by
        simp only [joinChannel, Option.map_eq_some'] at h
        obtain ⟨c, _, hc⟩ := h
        rw [← hc]
      simp only [List.filterMap_cons, h, List.map_cons, ha]
      exact ih.cons₂ _

/-- C6: `get_videos_from_channel` returns the channel's video files in
ascending lexicographic path order, with no duplicates when the directory
listing has none, and its output is determined by the set of files alone
(any reordering of the OS listing yields the identical result, so re-scans
reproduce the order); likewise `list_videos` returns rows sorted by the
(channel name, file name) key and introduces no duplicate paths. -/
theorem C6_entries_canonical_order :
    (∀ (channel_path : String) (dir_listing : List String),
      (get_videos_from_channel channel_path dir_listing).Sorted (· ≤ ·)) ∧
    (∀ (channel_path : String) (dir_listing : List String),
      dir_listing.Nodup →
      (get_videos_from_channel channel_path dir_listing).Nodup) ∧
    (∀ (channel_path : String) (l₁ l₂ : List String), l₁.Perm l₂ →
      get_videos_from_channel channel_path l₁ =
        get_videos_from_channel channel_path l₂) ∧
    (∀ (channels : List ChannelRow) (db : List VideoRow),
      (list_videos channels db).Sorted listKeyLe) ∧
    (∀ (channels : List ChannelRow) (db : List VideoRow),
      (db.map (fun r => r.path)).Nodup →
      ((list_videos channels db).map (fun a => a.2.path)).Nodup) := by
  refine ⟨?_, ?_, ?_, ?_, ?_⟩
  · intro p l
    exact List.sorted_insertionSort _ _
  · intro p l h
    have h1 : (l.filter is_video_file).Nodup := h.filter _
    have hinj : Function.Injective (fun file => p ++ "/" ++ file) := by
      intro a b hab
      exact string_append_left_cancel (p ++ "/") a b hab
    exact ((List.perm_insertionSort _ _).nodup_iff).mpr (h1.map hinj)
  · intro p l₁ l₂ h
    apply List.eq_of_perm_of_sorted _ (List.sorted_insertionSort _ _)
      (List.sorted_insertionSort _ _)
    exact (List.perm_insertionSort _ _).trans
      (((h.filter _).map _).trans (List.perm_insertionSort _ _).symm)
  · intro channels db
    exact List.sorted_insertionSort _ _
  · intro channels db h
    have h1 : ((db.filterMap (joinChannel channels)).map
        (fun a => a.2.path)).Nodup :=
      (joined_paths_sublist channels db).nodup h
    exact (((List.perm_insertionSort listKeyLe _).map _).nodup_iff).mpr h1

theorem C6_entries_canonical_order_witness :
    ((["b.mp4", "a.mp4"] : List String).Nodup ∧
      List.Perm ["b.mp4", "a.mp4"] ["a.mp4", "b.mp4"]) ∧
    (get_videos_from_channel "ch" ["b.mp4", "a.mp4"]).Nodup ∧
    get_videos_from_channel "ch" ["b.mp4", "a.mp4"] =
      get_videos_from_channel "ch" ["a.mp4", "b.mp4"] :=
  ⟨⟨by decide, List.Perm.swap "a.mp4" "b.mp4" []⟩,
    C6_entries_canonical_order.2.1 "ch" ["b.mp4", "a.mp4"] (by decide),
    C6_entries_canonical_order.2.2.1 "ch" ["b.mp4", "a.mp4"]
      ["a.mp4", "b.mp4"] (List.Perm.swap "a.mp4" "b.mp4" [])⟩

theorem upsert_video_fst (db : List VideoRow) (t ch : Nat) (p : String)
    (d : ℚ) (s : Option Nat) (m : Option String) :
    (upsert_video db t ch p d s m).1 =
      if db.any (fun r => r.path == p) then
        db.map (updateRow t ch p d s m)
      else
        db ++ [{ id := freshId db, channelId := ch, path := p,
                 fileName := pathName p, durationSeconds := d,
                 sizeBytes := s, modifiedAt := m, scannedAt := t }] := rfl

theorem upsert_video_mem_of_ne (db : List VideoRow) (t ch : Nat) (p : String)
    (d : ℚ) (s : Option Nat) (m : Option String) (r : VideoRow) (hr : r ∈ db)
    (hne : r.path ≠ p) : r ∈ (upsert_video db t ch p d s m).1 := by
  rw [upsert_video_fst]
  by_cases h : db.any (fun r => r.path == p)
  · rw [if_pos h]
    have hfix : updateRow t ch p d s m r = r := by
      simp [updateRow, hne]
    exact hfix ▸ List.mem_map_of_mem _ hr
  · rw [if_neg h]
    exact List.mem_append_left _ hr

theorem upsert_video_exists_path (db : List VideoRow) (t ch : Nat)
    (p : String) (d : ℚ) (s : Option Nat) (m : Option String) :
    ∃ r ∈ (upsert_video db t ch p d s m).1, r.path = p := by
  rw [upsert_video_fst]
  by_cases h : db.any (fun r => r.path == p)
  · rw [if_pos h]
    rw [List.any_eq_true] at h
    obtain ⟨r, hr, hp⟩ := h
    rw [beq_iff_eq] at hp
    refine ⟨updateRow t ch p d s m r, List.mem_map_of_mem _ hr, ?_⟩
    simp [updateRow, hp]
  · rw [if_neg h]
    exact ⟨_, List.mem_append_right _ (List.mem_singleton_self _), rfl⟩

theorem upsert_video_fields (db : List VideoRow) (t ch : Nat) (p : String)
    (d : ℚ) (s : Option Nat) (m : Option String) (r : VideoRow)
    (hr : r ∈ (upsert_video db t ch p d s m).1) (hp : r.path = p) :
    r.channelId = ch ∧ r.fileName = pathName p ∧ r.durationSeconds = d ∧
      r.sizeBytes = s ∧ r.modifiedAt = m ∧ r.scannedAt = t := by
  rw [upsert_video_fst] at hr
  by_cases h : db.any (fun r => r.path == p)
  · rw [if_pos h] at hr
    obtain ⟨r₀, hr₀, hup⟩ := List.mem_map.mp hr
    by_cases h₀ : r₀.path = p
    · rw [← hup]
      simp [updateRow, h₀]
    · rw [← hup] at hp
      simp [updateRow, h₀] at hp
  · rw [if_neg h] at hr
    rcases List.mem_append.mp hr with hin | hin
    · exfalso
      rw [List.any_eq_true] at h
      push_neg at h
      exact h r hin (by simp [hp])
    · rw [List.mem_singleton.mp hin]
      simp

theorem stripListed_list_videos (channels : List ChannelRow)
    (db : List VideoRow) :
    stripListed (list_videos channels db) =
      list_videos channels (stripScan db) := by
  unfold stripListed list_videos stripScan
  rw [List.map_insertionSort listKeyLe listKeyLe
    (fun a => (a.1, stripRow a.2)) _ (fun a _ b _ => Iff.rfl)]
  congr 1
  rw [List.map_filterMap, List.filterMap_map]
  congr 1
  funext r
  simp only [Function.comp, joinChannel, stripRow, Option.map_map]
  rfl

theorem upsert_video_idem_strip (db : List VideoRow) (t₁ t₂ ch : Nat)
    (p : String) (d : ℚ) (s : Option Nat) (m : Option String) :
    stripScan (upsert_video (upsert_video db t₁ ch p d s m).1 t₂ ch p d s m).1
      = stripScan (upsert_video db t₁ ch p d s m).1 := by
  set db₁ := (upsert_video db t₁ ch p d s m).1 with hdb₁
  have hany : db₁.any (fun r => r.path == p) = true := by
    rw [List.any_eq_true]
    obtain ⟨r, hr, hp⟩ := upsert_video_exists_path db t₁ ch p d s m
    exact ⟨r, hr, by simp [hp]⟩
  have hfst : (upsert_video db₁ t₂ ch p d s m).1 =
      db₁.map (updateRow t₂ ch p d s m) := by
    rw [upsert_video_fst, if_pos hany]
  rw [hfst]
  unfold stripScan
  rw [List.map_map]
  apply List.map_congr_left
  intro r hr
  by_cases hp : r.path = p
  · obtain ⟨hch, hfn, hd, hs, hm, -⟩ :=
      upsert_video_fields db t₁ ch p d s m r (hdb₁ ▸ hr) hp
    simp only [Function.comp, updateRow, if_pos hp, stripRow]
    obtain ⟨id, cid, pth, fn, dur, sz, md, sc⟩ := r
    simp_all
  · simp [Function.comp, updateRow, hp]

/-- C7: upserting the same (channel, path, duration, size, modification
time) twice is observationally idempotent: up to the `ScannedAt` scan
timestamp (scan metadata, not a Video Entry field), both the stored table
and the sorted `list_videos` view are unchanged in content and order
compared with a single upsert. -/
theorem C7_upsert_idempotent (db : List VideoRow) (t₁ t₂ channel_id : Nat)
    (path : String) (duration : ℚ) (size : Option Nat)
    (modified : Option String) (channels : List ChannelRow) :
    stripScan (upsert_video
        (upsert_video db t₁ channel_id path duration size modified).1
        t₂ channel_id path duration size modified).1 =
      stripScan
        (upsert_video db t₁ channel_id path duration size modified).1 ∧
    stripListed (list_videos channels (upsert_video
        (upsert_video db t₁ channel_id path duration size modified).1
        t₂ channel_id path duration size modified).1) =
      stripListed (list_videos channels
        (upsert_video db t₁ channel_id path duration size modified).1) := by
  have h := upsert_video_idem_strip db t₁ t₂ channel_id path duration size
    modified
  refine ⟨h, ?_⟩
  rw [stripListed_list_videos, stripListed_list_videos, h]

theorem scan_channel_files_mem_preserved (nowTs ch_id : Nat)
    (files : List ScanFile) :
    ∀ (db : List VideoRow) (ct : ℚ) (r : VideoRow), r ∈ db →
      (∀ f ∈ files, f.path ≠ r.path) →
      r ∈ (scan_channel_files nowTs ch_id files db ct).1 := by
  induction files with
  | nil =>
    intro db ct r hr _
    simpa [scan_channel_files] using hr
  | cons f fs ih =>
    intro db ct r hr hne
    cases h : f.probedDuration with
    | none =>
      simp only [scan_channel_files, h]
      exact ih db ct r hr (fun g hg => hne g (List.mem_cons_of_mem f hg))
    | some dur =>
      simp only [scan_channel_files, h]
      exact ih _ _ r
        (upsert_video_mem_of_ne db nowTs ch_id f.path dur f.sizeBytes
          f.modifiedAt r hr (hne f (List.mem_cons_self f fs)).symm)
        (fun g hg => hne g (List.mem_cons_of_mem f hg))

theorem scan_channel_files_upserted (nowTs ch_id : Nat) :
    ∀ (files : List ScanFile) (db : List VideoRow) (ct : ℚ),
      (files.map (fun f => f.path)).Nodup →
      ∀ f ∈ files, ∀ d, f.probedDuration = some d →
      ∃ r ∈ (scan_channel_files nowTs ch_id files db ct).1,
        r.path = f.path ∧ r.channelId = ch_id ∧ r.durationSeconds = d ∧
        r.sizeBytes = f.sizeBytes ∧ r.modifiedAt = f.modifiedAt ∧
        r.scannedAt = nowTs := by
  intro files
  induction files with
  | nil =>
    intro db ct _ f hf
    simp at hf
  | cons f₀ fs ih =>
    intro db ct hnd f hf d hd
    have hnd' : (f₀.path ∉ fs.map (fun f => f.path)) ∧
        (fs.map (fun f => f.path)).Nodup := by
      simpa [List.nodup_cons] using hnd
    rcases List.mem_cons.mp hf with rfl | hf'
    · simp only [scan_channel_files, hd]
      obtain ⟨r, hr, hp⟩ := upsert_video_exists_path db nowTs ch_id f.path d
        f.sizeBytes f.modifiedAt
      obtain ⟨hch, hfn, hdur, hs, hm, ht⟩ := upsert_video_fields db nowTs
        ch_id f.path d f.sizeBytes f.modifiedAt r hr hp
      refine ⟨r, scan_channel_files_mem_preserved nowTs ch_id fs _ _ r hr
        ?_, hp, hch, hdur, hs, hm, ht⟩
      intro g hg
      rw [hp]
      intro hgp
      exact hnd'.1 (hgp ▸ List.mem_map_of_mem (fun f => f.path) hg)
    · cases h₀ : f₀.probedDuration with
      | none =>
        simp only [scan_channel_files, h₀]
        exact ih db ct hnd'.2 f hf' d hd
      | some dur =>
        simp only [scan_channel_files, h₀]
        exact ih _ _ hnd'.2 f hf' d hd

/-- C8 counterexample: scanning channel 1 when the directory holds only
`new.mp4` leaves the previously stored `old.mp4` row in the channel's
entry list — the stored entries are not exactly the entries produced by the
scan, because `scan_and_store_durations` only upserts and never deletes. -/
theorem C8_scan_not_wholesale_counterexample :
    ((scan_channel_files 10 1 c8_scan_files c8_prior_db 0).1.filter
        (fun r => r.channelId == 1)).map (fun r => r.path) =
      ["freevideos/channel1/old.mp4", "freevideos/channel1/new.mp4"] ∧
    "freevideos/channel1/old.mp4" ∉ c8_scan_files.map (fun f => f.path) := by
  constructor
  · decide
  · decide

/-- C8 amended: a scan is incremental, not a wholesale rebuild: every prior
row whose path is absent from the scan survives unchanged in the stored
table, and every successfully probed file ends up upserted with the scanned
channel, duration, size, modification time and scan timestamp; each file is
applied as its own upsert (no atomic swap of a rebuilt list). -/
theorem C8_amended_scan_is_incremental (nowTs ch_id : Nat)
    (files : List ScanFile) (db : List VideoRow) (ct : ℚ) :
    (∀ r ∈ db, (∀ f ∈ files, f.path ≠ r.path) →
      r ∈ (scan_channel_files nowTs ch_id files db ct).1) ∧
    ((files.map (fun f => f.path)).Nodup →
      ∀ f ∈ files, ∀ d, f.probedDuration = some d →
      ∃ r ∈ (scan_channel_files nowTs ch_id files db ct).1,
        r.path = f.path ∧ r.channelId = ch_id ∧ r.durationSeconds = d ∧
        r.sizeBytes = f.sizeBytes ∧ r.modifiedAt = f.modifiedAt ∧
        r.scannedAt = nowTs) :=
  ⟨fun r hr hne =>
    scan_channel_files_mem_preserved nowTs ch_id files db ct r hr hne,
   fun hnd f hf d hd =>
    scan_channel_files_upserted nowTs ch_id files db ct hnd f hf d hd⟩

theorem C8_amended_scan_is_incremental_witness :
    (c8_oldRow ∈ c8_prior_db ∧
      (∀ f ∈ c8_scan_files, f.path ≠ c8_oldRow.path)) ∧
    c8_oldRow ∈ (scan_channel_files 10 1 c8_scan_files c8_prior_db 0).1 :=
  ⟨⟨List.mem_singleton_self _, by decide⟩,
   (C8_amended_scan_is_incremental 10 1 c8_scan_files c8_prior_db 0).1
     c8_oldRow (List.mem_singleton_self _) (by decide)⟩
